import Mathlib

/-!
Verification of the `p-mutex` mutual-exclusion primitive.

The source is a single class `Mutex` with a boolean field `#isLocked`, a FIFO
queue `#queue` of pending resume callbacks, and the operations `tryLock`,
`lock`, `unlock` and `withLock`.  We embed the mutex state as a structure over
`Bool` and `List Nat` (waiting tasks are identified by natural-number ids; the
queue holds the ids of the suspended callers, standing for their one-shot
resume callbacks), and each operation as a pure state transformer returning
exactly what the source observes:

* `tryLock : Mutex → Bool × Mutex` — the returned boolean of `tryLock()`;
* `lock : Nat → Mutex → LockResult × Mutex` — whether the caller acquired
  immediately or was enqueued (and suspended);
* `unlock : Mutex → Option Nat × Mutex` — the id of the waiter whose resume
  callback was invoked, if any.

On top of the pure operations we build three operational models:

* `MStep` — arbitrary (undisciplined) interleavings of the three primitive
  operations, for the reachable-state invariant;
* `RStep` — interleavings in which only a task currently inside its critical
  section calls `unlock` (a "matching release"), instrumented with the list of
  tasks inside the critical section and with enqueue/grant logs, for mutual
  exclusion and FIFO fairness;
* `WStep` — the lifecycle of `withLock` callers (fast path via `tryLock`,
  slow path via `lock`, task execution, `finally`-guaranteed `unlock`),
  for the `withLock` claims.
-/

namespace PMutex

/-- The mutex state: the `#isLocked` flag and the FIFO `#queue` of pending
resume callbacks, each represented by the id of the suspended caller. -/
structure Mutex where
  isLocked : Bool
  queue : List Nat
deriving DecidableEq, Repr

/-- A freshly constructed `Mutex`: field initializers `#isLocked = false` and
`#queue = new Queue()`. -/
def Mutex.init : Mutex :=
  { isLocked := false, queue := [] }

/-- Result of `tryLock()` together with the updated state: if the lock is not
held, set `#isLocked` and return `true`; otherwise return `false` and change
nothing. -/
def tryLock (m : Mutex) : Bool × Mutex :=
  if !m.isLocked then (true, { m with isLocked := true })
  else (false, m)

/-- What `lock()` did for its caller: returned immediately with the lock
acquired, or enqueued the caller's resume callback (the caller suspends). -/
inductive LockResult : Type where
  | acquired
  | enqueued
deriving DecidableEq, Repr

/-- The `lock()` operation for caller `t`: if the lock is not held, set
`#isLocked` and return; otherwise enqueue the caller's resolve callback at
the back of `#queue` and suspend. -/
def lock (t : Nat) (m : Mutex) : LockResult × Mutex :=
  if !m.isLocked then (LockResult.acquired, { m with isLocked := true })
  else (LockResult.enqueued, { m with queue := m.queue ++ [t] })

/-- The `unlock()` operation: if `#queue.size > 0`, dequeue the head resume
callback and invoke it (the returned `some w` records the single invocation of
waiter `w`'s callback); otherwise clear `#isLocked`. -/
def unlock (m : Mutex) : Option Nat × Mutex :=
  if m.queue.length > 0 then (m.queue.head?, { m with queue := m.queue.tail })
  else (none, { m with isLocked := false })

/-- Arbitrary interleavings of the three primitive operations, with no usage
discipline at all: any task may call `tryLock`, `lock` or `unlock` from any
state. -/
inductive MStep : Mutex → Mutex → Prop where
  | tryLockStep (m : Mutex) : MStep m (tryLock m).2
  | lockStep (t : Nat) (m : Mutex) : MStep m (lock t m).2
  | unlockStep (m : Mutex) : MStep m (unlock m).2

/-- Mutex states reachable from a freshly constructed mutex by any sequence of
`tryLock`, `lock` and `unlock` calls. -/
def MReachable (m : Mutex) : Prop :=
  Relation.ReflTransGen MStep Mutex.init m

/-- An instrumented configuration for disciplined clients: the mutex state
together with the list of tasks currently inside their critical section
(between their own successful acquisition and their own release), the log of
task ids in the order they were enqueued by `lock`, and the log of task ids
in the order their resume callbacks were invoked by `unlock`. -/
structure RConfig where
  mutex : Mutex
  inside : List Nat
  enqLog : List Nat
  grantLog : List Nat
deriving DecidableEq, Repr

/-- The initial configuration: a fresh mutex, nobody inside the critical
section, empty logs. -/
def RConfig.init : RConfig :=
  { mutex := Mutex.init, inside := [], enqLog := [], grantLog := [] }

/-- Disciplined interleavings of the primitive operations: any task may call
`tryLock` or `lock` at any time, but `unlock` is called only by a task that is
currently inside its critical section (each release matches the caller's own
acquisition).  A successful `tryLock` or immediate `lock` puts the caller
inside; `unlock` removes the caller and moves the resumed waiter (if any)
directly inside. -/
inductive RStep : RConfig → RConfig → Prop where
  | tryLockStep (t : Nat) (c : RConfig) :
      RStep c
        { c with
          mutex := (tryLock c.mutex).2,
          inside := if (tryLock c.mutex).1 then t :: c.inside else c.inside }
  | lockStep (t : Nat) (c : RConfig) :
      RStep c
        { c with
          mutex := (lock t c.mutex).2,
          inside :=
            if (lock t c.mutex).1 = LockResult.acquired then t :: c.inside
            else c.inside,
          enqLog :=
            if (lock t c.mutex).1 = LockResult.acquired then c.enqLog
            else c.enqLog ++ [t] }
  | unlockStep (t : Nat) (c : RConfig) (h : t ∈ c.inside) :
      RStep c
        { c with
          mutex := (unlock c.mutex).2,
          inside := c.inside.erase t ++ (unlock c.mutex).1.toList,
          grantLog := c.grantLog ++ (unlock c.mutex).1.toList }

/-- Configurations reachable from the initial configuration by disciplined
interleavings. -/
def RReachable (c : RConfig) : Prop :=
  Relation.ReflTransGen RStep RConfig.init c

/-- The inductive invariant of disciplined executions: a free lock has nobody
inside and no waiters, at most one task is inside the critical section, and
the grant log followed by the current queue is exactly the enqueue log (so
callbacks are invoked in precisely their enqueue order). -/
def RInv (c : RConfig) : Prop :=
  (c.mutex.isLocked = false → c.inside = [] ∧ c.mutex.queue = []) ∧
    c.inside.length ≤ 1 ∧
    c.grantLog ++ c.mutex.queue = c.enqLog

deriving instance DecidableEq for Except

/-- Lifecycle phase of a `withLock` caller.  `E` is the type of failure values
a task can raise, `V` the type of values it can return; the caller-supplied
task is summarized by its outcome, an `Except E V`.  The phases follow the
body of `withLock`: about to enter, suspended inside `await this.lock()`,
holding the lock while `await task()` runs, and completed with the outcome
that `withLock`'s promise settles with (after the `finally` block ran). -/
inductive Phase (E V : Type) : Type where
  | start (tk : Except E V)
  | waiting (tk : Except E V)
  | running (tk : Except E V)
  | done (outcome : Except E V)
deriving DecidableEq, Repr

variable {E V : Type}

/-- A configuration of `withLock` callers: the mutex plus the phase of every
participating task id (`none` for ids not using the mutex). -/
structure WConfig (E V : Type) where
  mutex : Mutex
  tasks : Nat → Option (Phase E V)

/-- One scheduler step of the `withLock` lifecycle:

* `startFast` — `this.tryLock()` returns `true`, so `await this.lock()` is
  skipped and the caller proceeds to `await task()` without suspending;
* `startSlow` — `this.tryLock()` returns `false`, so the caller runs
  `await this.lock()`, which enqueues its resolve callback and suspends it;
* `finishGrant` — the task of a lock holder settles with outcome `tk`; the
  `finally` block calls `this.unlock()`, which dequeues waiter `w` and invokes
  its resolve callback, so `w` proceeds to `await task()` (holding the lock
  with no further check) while the finisher's promise settles with `tk`;
* `finishFree` — as above but the queue is empty, so `unlock()` clears
  `#isLocked` and nobody is resumed. -/
inductive WStep : WConfig E V → WConfig E V → Prop where
  | startFast (c : WConfig E V) (t : Nat) (tk : Except E V) :
      c.tasks t = some (Phase.start tk) →
      (tryLock c.mutex).1 = true →
      WStep c
        { mutex := (tryLock c.mutex).2,
          tasks := fun x => if x = t then some (Phase.running tk) else c.tasks x }
  | startSlow (c : WConfig E V) (t : Nat) (tk : Except E V) :
      c.tasks t = some (Phase.start tk) →
      (tryLock c.mutex).1 = false →
      WStep c
        { mutex := (lock t (tryLock c.mutex).2).2,
          tasks := fun x => if x = t then some (Phase.waiting tk) else c.tasks x }
  | finishGrant (c : WConfig E V) (t w : Nat) (tk tkw : Except E V) :
      c.tasks t = some (Phase.running tk) →
      (unlock c.mutex).1 = some w →
      c.tasks w = some (Phase.waiting tkw) →
      WStep c
        { mutex := (unlock c.mutex).2,
          tasks := fun x =>
            if x = t then some (Phase.done tk)
            else if x = w then some (Phase.running tkw)
            else c.tasks x }
  | finishFree (c : WConfig E V) (t : Nat) (tk : Except E V) :
      c.tasks t = some (Phase.running tk) →
      (unlock c.mutex).1 = none →
      WStep c
        { mutex := (unlock c.mutex).2,
          tasks := fun x => if x = t then some (Phase.done tk) else c.tasks x }

/-- The task outcome carried by a phase: for a completed caller, the outcome
its `withLock` promise settled with; for every other phase, the outcome its
task will produce. -/
def taskOf : Phase E V → Except E V
  | Phase.start tk => tk
  | Phase.waiting tk => tk
  | Phase.running tk => tk
  | Phase.done o => o

theorem tryLock_of_free (m : Mutex) (h : m.isLocked = false) :
    tryLock m = (true, { m with isLocked := true }) := by
  simp [tryLock, h]

theorem tryLock_of_held (m : Mutex) (h : m.isLocked = true) :
    tryLock m = (false, m) := by
  simp [tryLock, h]

theorem lock_of_free (t : Nat) (m : Mutex) (h : m.isLocked = false) :
    lock t m = (LockResult.acquired, { m with isLocked := true }) := by
  simp [lock, h]

theorem lock_of_held (t : Nat) (m : Mutex) (h : m.isLocked = true) :
    lock t m = (LockResult.enqueued, { m with queue := m.queue ++ [t] }) := by
  simp [lock, h]

theorem unlock_of_queue_cons (m : Mutex) (w : Nat) (rest : List Nat)
    (h : m.queue = w :: rest) : unlock m = (some w, { m with queue := rest }) := by
  simp [unlock, h]

theorem unlock_of_queue_nil (m : Mutex) (h : m.queue = []) :
    unlock m = (none, { m with isLocked := false }) := by
  simp [unlock, h]

/-- C4: `tryLock` returns `true` and sets the held flag exactly when the lock
was free at the call; otherwise it returns `false` with no state change at
all, and in every case it never enqueues a waiter. -/
theorem tryLock_succeeds_iff_free (m : Mutex) :
    ((tryLock m).1 = true ↔ m.isLocked = false) ∧
      (m.isLocked = false → (tryLock m).2 = { m with isLocked := true }) ∧
      (m.isLocked = true → (tryLock m).2 = m) ∧
      (tryLock m).2.queue = m.queue := by
  cases hm : m.isLocked <;> simp [tryLock, hm]

/-- Witness for C4 at concrete states: `tryLock` on a free mutex grants and
sets the flag; on a held mutex with an empty queue it fails and changes
nothing (in particular it does not enqueue). -/
theorem tryLock_succeeds_iff_free_witness :
    ((tryLock { isLocked := false, queue := [] }).1 = true ↔
        (({ isLocked := false, queue := [] } : Mutex)).isLocked = false) ∧
      (tryLock { isLocked := false, queue := [] }).2 =
        { isLocked := true, queue := [] } ∧
      (tryLock { isLocked := true, queue := [] }).2 =
        { isLocked := true, queue := [] } :=
  ⟨(tryLock_succeeds_iff_free { isLocked := false, queue := [] }).1,
    (tryLock_succeeds_iff_free { isLocked := false, queue := [] }).2.1 rfl,
    (tryLock_succeeds_iff_free { isLocked := true, queue := [] }).2.2.1 rfl⟩

/-- C7: calling `unlock` on a free mutex with an empty waiter queue raises no
error (the operation is total in the embedding, matching the source's
error-free `else` branch) and leaves the state free with an empty queue. -/
theorem unlock_on_free_empty_is_noop :
    unlock { isLocked := false, queue := [] } =
      (none, { isLocked := false, queue := [] }) :=
  rfl

/-- C3: when the waiter queue is non-empty, `unlock` removes exactly the head
entry and invokes exactly that entry's resume callback (the `some w` result
records the single invocation), the held flag is unchanged — in particular it
stays `true` when it was `true`, so the lock is never observably free between
the releasing holder and the resumed waiter — and the remaining waiters are
exactly the original tail, unchanged and in order. -/
theorem unlock_nonempty_resumes_head_only (m : Mutex) (w : Nat) (rest : List Nat)
    (h : m.queue = w :: rest) :
    (unlock m).1 = some w ∧
      (unlock m).2.queue = rest ∧
      (unlock m).2.isLocked = m.isLocked ∧
      (m.isLocked = true → (unlock m).2.isLocked = true) := by
  simp [unlock, h]

/-- Witness for C3: releasing a held mutex with waiters `4, 9` resumes exactly
waiter `4`, keeps the flag set, and leaves `9` queued. -/
theorem unlock_nonempty_resumes_head_only_witness :
    (unlock { isLocked := true, queue := [4, 9] }).1 = some 4 ∧
      (unlock { isLocked := true, queue := [4, 9] }).2.queue = [9] ∧
      (unlock { isLocked := true, queue := [4, 9] }).2.isLocked =
        (({ isLocked := true, queue := [4, 9] } : Mutex)).isLocked ∧
      ((({ isLocked := true, queue := [4, 9] } : Mutex)).isLocked = true →
        (unlock { isLocked := true, queue := [4, 9] }).2.isLocked = true) :=
  unlock_nonempty_resumes_head_only { isLocked := true, queue := [4, 9] } 4 [9] rfl

/-- C10: `unlock` performs no ownership check — it is a function of the mutex
state alone, with no caller parameter, mirroring the source.  On any state
with two queued waiters, two consecutive `unlock` calls (by anyone) resume
both waiters in turn while the held flag never changes: the over-release
tolerance of the free state does not extend to the held-with-waiters state,
where each extra `unlock` admits an additional task as holder. -/
theorem unlock_no_ownership_check_double_release (m : Mutex) (w1 w2 : Nat)
    (rest : List Nat) (h : m.queue = w1 :: w2 :: rest) :
    (unlock m).1 = some w1 ∧
      (unlock m).2.isLocked = m.isLocked ∧
      (unlock (unlock m).2).1 = some w2 ∧
      (unlock (unlock m).2).2.isLocked = m.isLocked ∧
      (unlock (unlock m).2).2.queue = rest := by
  simp [unlock, h]

/-- Witness for C10: on a held mutex with waiters `1, 2`, two consecutive
`unlock` calls resume `1` then `2` and leave the flag set. -/
theorem unlock_no_ownership_check_double_release_witness :
    (unlock { isLocked := true, queue := [1, 2] }).1 = some 1 ∧
      (unlock { isLocked := true, queue := [1, 2] }).2.isLocked =
        (({ isLocked := true, queue := [1, 2] } : Mutex)).isLocked ∧
      (unlock (unlock { isLocked := true, queue := [1, 2] }).2).1 = some 2 ∧
      (unlock (unlock { isLocked := true, queue := [1, 2] }).2).2.isLocked =
        (({ isLocked := true, queue := [1, 2] } : Mutex)).isLocked ∧
      (unlock (unlock { isLocked := true, queue := [1, 2] }).2).2.queue = [] :=
  unlock_no_ownership_check_double_release
    { isLocked := true, queue := [1, 2] } 1 2 [] rfl

theorem unlock_isLocked_of_isSome (m : Mutex) (w : Nat)
    (h : (unlock m).1 = some w) : (unlock m).2.isLocked = m.isLocked := by
  cases hq : m.queue with
  | nil => rw [unlock_of_queue_nil m hq] at h; cases h
  | cons a l => simp [unlock_of_queue_cons m a l hq]

/-- C5: `lock` on a free mutex sets the held flag, enqueues nothing, and
returns `acquired` (the caller proceeds without suspending); on a held mutex
it appends the caller's fresh resume entry at the back of the queue and
returns `enqueued` (the caller suspends).  Moreover, in the `withLock`
lifecycle a suspended caller changes phase only when a `unlock` dequeues
exactly its own entry and invokes it, after which the caller is immediately
running (it holds the lock) with no additional check or retry, and the held
flag is not toggled by that hand-off. -/
theorem lock_fast_path_or_enqueue :
    (∀ (t : Nat) (m : Mutex), m.isLocked = false →
        lock t m = (LockResult.acquired, { m with isLocked := true })) ∧
      (∀ (t : Nat) (m : Mutex), m.isLocked = true →
          lock t m = (LockResult.enqueued, { m with queue := m.queue ++ [t] })) ∧
      (∀ (E V : Type) (c c' : WConfig E V) (t : Nat) (tk : Except E V),
          WStep c c' → c.tasks t = some (Phase.waiting tk) →
          c'.tasks t ≠ some (Phase.waiting tk) →
          (unlock c.mutex).1 = some t ∧
            c'.tasks t = some (Phase.running tk) ∧
            c'.mutex.isLocked = c.mutex.isLocked) := by
  refine ⟨fun t m h => lock_of_free t m h, fun t m h => lock_of_held t m h, ?_⟩
  intro E V c c' t tk hstep hw hne
  cases hstep with
  | startFast s tk' hs htl =>
      by_cases hts : t = s
      · subst hts; rw [hw] at hs; simp at hs
      · exact absurd (by simp [hts, hw]) hne
  | startSlow s tk' hs htl =>
      by_cases hts : t = s
      · subst hts; rw [hw] at hs; simp at hs
      · exact absurd (by simp [hts, hw]) hne
  | finishGrant s w tk' tkw hs hu hww =>
      by_cases hts : t = s
      · subst hts; rw [hw] at hs; simp at hs
      · by_cases htw : t = w
        · subst htw
          rw [hw] at hww
          simp only [Option.some.injEq, Phase.waiting.injEq] at hww
          subst hww
          exact ⟨hu, by simp [hts], unlock_isLocked_of_isSome c.mutex t hu⟩
        · exact absurd (by simp [hts, htw, hw]) hne
  | finishFree s tk' hs hu =>
      by_cases hts : t = s
      · subst hts; rw [hw] at hs; simp at hs
      · exact absurd (by simp [hts, hw]) hne

/-- Witness for C5: the pure branches at concrete states, and a concrete
`finishGrant` step in which the holder `0` finishes and the queued waiter `1`
is resumed into the running phase with the flag still set. -/
theorem lock_fast_path_or_enqueue_witness :
    lock 3 { isLocked := false, queue := [] } =
        (LockResult.acquired, { isLocked := true, queue := [] }) ∧
      lock 3 { isLocked := true, queue := [7] } =
        (LockResult.enqueued, { isLocked := true, queue := [7, 3] }) ∧
      (unlock ({ isLocked := true, queue := [1] } : Mutex)).1 = some 1 := by
  refine ⟨lock_fast_path_or_enqueue.1 3 _ rfl,
    lock_fast_path_or_enqueue.2.1 3 _ rfl, ?_⟩
  have hst := WStep.finishGrant
    ({ mutex := { isLocked := true, queue := [1] },
       tasks := fun x =>
         if x = 0 then some (Phase.running (Except.ok 7))
         else if x = 1 then some (Phase.waiting (Except.ok 8))
         else none } : WConfig Nat Nat)
    0 1 (Except.ok 7) (Except.ok 8) rfl rfl rfl
  exact (lock_fast_path_or_enqueue.2.2 Nat Nat _ _ 1 (Except.ok 8) hst
    (by decide) (by decide)).1

theorem mstep_queue_locked (m m' : Mutex) (h : MStep m m')
    (ih : m.queue ≠ [] → m.isLocked = true) :
    m'.queue ≠ [] → m'.isLocked = true := by
  cases h with
  | tryLockStep m =>
      cases hm : m.isLocked with
      | false => simp [tryLock_of_free m hm]
      | true => simp [tryLock_of_held m hm, hm]
  | lockStep t m =>
      cases hm : m.isLocked with
      | false => simp [lock_of_free t m hm]
      | true => simp [lock_of_held t m hm, hm]
  | unlockStep m =>
      cases hq : m.queue with
      | nil => simp [unlock_of_queue_nil m hq, hq]
      | cons a l =>
          have hl : m.isLocked = true := ih (by simp [hq])
          simp [unlock_of_queue_cons m a l hq, hl]

/-- C6: a newly constructed mutex is free with an empty queue, and in every
state reachable by arbitrary sequences of `tryLock`, `lock` and `unlock`
calls, a non-empty waiter queue implies the held flag is set (equivalently,
a free mutex has no waiters). -/
theorem init_free_and_waiters_imply_held :
    Mutex.init.isLocked = false ∧ Mutex.init.queue = [] ∧
      ∀ m : Mutex, MReachable m → m.queue ≠ [] → m.isLocked = true := by
  refine ⟨rfl, rfl, ?_⟩
  intro m hm
  induction hm with
  | refl => simp [Mutex.init]
  | tail hab hbc ih => exact mstep_queue_locked _ _ hbc ih

/-- Witness for C6: the state with the lock held and waiter `1` queued is
reachable (task `0` acquires, then task `1` queues), and the invariant applied
there yields that the flag is set. -/
theorem init_free_and_waiters_imply_held_witness :
    ({ isLocked := true, queue := [1] } : Mutex).isLocked = true := by
  refine init_free_and_waiters_imply_held.2.2
    { isLocked := true, queue := [1] } ?_ (by simp)
  exact Relation.ReflTransGen.tail
    (Relation.ReflTransGen.tail Relation.ReflTransGen.refl
      (MStep.lockStep 0 Mutex.init))
    (MStep.lockStep 1 { isLocked := true, queue := [] })

theorem singleton_of_length_le_one {α : Type} {l : List α} {t : α}
    (h1 : l.length ≤ 1) (h2 : t ∈ l) : l = [t] := by
  cases l with
  | nil => cases h2
  | cons a l' =>
      cases l' with
      | nil => simp only [List.mem_singleton] at h2; rw [h2]
      | cons b l'' => simp at h1

theorem rstep_preserves_inv (c c' : RConfig) (h : RStep c c') (ih : RInv c) :
    RInv c' := by
  obtain ⟨hfree, hlen, hlog⟩ := ih
  cases h with
  | tryLockStep t =>
      cases hm : c.mutex.isLocked with
      | false =>
          obtain ⟨hi, hq⟩ := hfree hm
          have hlog' : c.grantLog = c.enqLog := by simpa [hq] using hlog
          refine ⟨?_, ?_, ?_⟩ <;>
            simp [RInv, tryLock_of_free c.mutex hm, hi, hq, hlog']
      | true =>
          refine ⟨?_, ?_, ?_⟩ <;>
            simp [RInv, tryLock_of_held c.mutex hm, hm, hlen, hlog]
  | lockStep t =>
      cases hm : c.mutex.isLocked with
      | false =>
          obtain ⟨hi, hq⟩ := hfree hm
          have hlog' : c.grantLog = c.enqLog := by simpa [hq] using hlog
          refine ⟨?_, ?_, ?_⟩ <;>
            simp [RInv, lock_of_free t c.mutex hm, hi, hq, hlog']
      | true =>
          refine ⟨?_, ?_, ?_⟩ <;>
            simp [RInv, lock_of_held t c.mutex hm, hm, hlen,
              ← List.append_assoc, hlog]
  | unlockStep t =>
      rename_i hmem
      have hin : c.inside = [t] := singleton_of_length_le_one hlen hmem
      cases hq : c.mutex.queue with
      | nil =>
          have hlog' : c.grantLog = c.enqLog := by simpa [hq] using hlog
          refine ⟨?_, ?_, ?_⟩ <;>
            simp [RInv, unlock_of_queue_nil c.mutex hq, hq, hin, hlog']
      | cons a l =>
          have hl : c.mutex.isLocked = true := by
            cases hml : c.mutex.isLocked with
            | true => rfl
            | false =>
                have hcontra := (hfree hml).2
                rw [hq] at hcontra
                cases hcontra
          have hlog' : c.grantLog ++ (a :: l) = c.enqLog := hq ▸ hlog
          refine ⟨?_, ?_, ?_⟩ <;>
            simp [RInv, unlock_of_queue_cons c.mutex a l hq, hl, hin,
              List.append_assoc]
          simpa using hlog'

theorem rInv_reachable (c : RConfig) (h : RReachable c) : RInv c := by
  induction h with
  | refl => exact ⟨fun _ => ⟨rfl, rfl⟩, by simp [RConfig.init], rfl⟩
  | tail hab hbc ih => exact rstep_preserves_inv _ _ hbc ih

/-- C2: in every reachable configuration of disciplined interleavings, the log
of invoked resume callbacks followed by the current queue equals the log of
enqueued callers — so waiters are granted ownership in exactly the order in
which their `lock` calls enqueued them — and each `unlock` on a non-empty
queue grants exactly the earliest-enqueued remaining waiter, never one out of
arrival order. -/
theorem acquire_grants_in_fifo_order :
    (∀ c : RConfig, RReachable c →
        c.grantLog ++ c.mutex.queue = c.enqLog) ∧
      ∀ (m : Mutex) (w : Nat) (rest : List Nat), m.queue = w :: rest →
          (unlock m).1 = some w := by
  refine ⟨fun c h => (rInv_reachable c h).2.2, ?_⟩
  intro m w rest h
  simp [unlock, h]

/-- Witness for C2: after task `0` acquires, task `1` queues and task `0`
releases, the reached configuration has grant log `1`, empty queue and
enqueue log `1`, and `unlock` on queue `5, 6` grants exactly `5`. -/
theorem acquire_grants_in_fifo_order_witness :
    (({ mutex := { isLocked := true, queue := [] }, inside := [1],
        enqLog := [1], grantLog := [1] } : RConfig)).grantLog ++
        (({ mutex := { isLocked := true, queue := [] }, inside := [1],
            enqLog := [1], grantLog := [1] } : RConfig)).mutex.queue =
        (({ mutex := { isLocked := true, queue := [] }, inside := [1],
            enqLog := [1], grantLog := [1] } : RConfig)).enqLog ∧
      (unlock { isLocked := true, queue := [5, 6] }).1 = some 5 := by
  have h1 : RStep RConfig.init
      { mutex := { isLocked := true, queue := [] }, inside := [0],
        enqLog := [], grantLog := [] } :=
    RStep.lockStep 0 RConfig.init
  have h2 : RStep
      { mutex := { isLocked := true, queue := [] }, inside := [0],
        enqLog := [], grantLog := [] }
      { mutex := { isLocked := true, queue := [1] }, inside := [0],
        enqLog := [1], grantLog := [] } :=
    RStep.lockStep 1 _
  have h3 : RStep
      { mutex := { isLocked := true, queue := [1] }, inside := [0],
        enqLog := [1], grantLog := [] }
      { mutex := { isLocked := true, queue := [] }, inside := [1],
        enqLog := [1], grantLog := [1] } :=
    RStep.unlockStep 0 _ (by decide)
  exact ⟨acquire_grants_in_fifo_order.1 _
      (Relation.ReflTransGen.tail
        (Relation.ReflTransGen.tail
          (Relation.ReflTransGen.tail Relation.ReflTransGen.refl h1) h2) h3),
    acquire_grants_in_fifo_order.2 { isLocked := true, queue := [5, 6] } 5 [6] rfl⟩

/-- C9: mutual exclusion — in every configuration reachable by disciplined
interleavings (each task releases only while inside its own critical section),
at most one task is inside the region between its own successful acquisition
and its own matching release. -/
theorem mutual_exclusion_at_most_one_inside (c : RConfig) (h : RReachable c) :
    c.inside.length ≤ 1 :=
  (rInv_reachable c h).2.1

/-- Witness for C9: the configuration reached after task `0` takes the fast
path has exactly one task inside the critical section. -/
theorem mutual_exclusion_at_most_one_inside_witness :
    (({ mutex := { isLocked := true, queue := [] }, inside := [0],
        enqLog := [], grantLog := [] } : RConfig)).inside.length ≤ 1 :=
  mutual_exclusion_at_most_one_inside _
    (Relation.ReflTransGen.tail Relation.ReflTransGen.refl
      (RStep.tryLockStep 0 RConfig.init))

theorem wstep_payload (c c' : WConfig E V) (h : WStep c c') (u : Nat) :
    (c'.tasks u).map taskOf = (c.tasks u).map taskOf := by
  cases h with
  | startFast s tk hs htl =>
      by_cases hu : u = s
      · subst hu; simp [hs, taskOf]
      · simp [hu]
  | startSlow s tk hs htl =>
      by_cases hu : u = s
      · subst hu; simp [hs, taskOf]
      · simp [hu]
  | finishGrant s w tk tkw hs hu2 hww =>
      by_cases hus : u = s
      · subst hus; simp [hs, taskOf]
      · by_cases huw : u = w
        · subst huw; simp [hus, hww, taskOf]
        · simp [hus, huw]
  | finishFree s tk hs hu2 =>
      by_cases hu : u = s
      · subst hu; simp [hs, taskOf]
      · simp [hu]

theorem wtrace_payload (c c' : WConfig E V)
    (h : Relation.ReflTransGen WStep c c') (u : Nat) :
    (c'.tasks u).map taskOf = (c.tasks u).map taskOf := by
  induction h with
  | refl => rfl
  | tail hab hbc ih => rw [wstep_payload _ _ hbc u, ih]

theorem wstep_finish_inv (c c' : WConfig E V) (t : Nat) (tk : Except E V)
    (h : WStep c c') (hr : c.tasks t = some (Phase.running tk))
    (hne : c'.tasks t ≠ some (Phase.running tk)) :
    c'.tasks t = some (Phase.done tk) ∧ c'.mutex = (unlock c.mutex).2 := by
  cases h with
  | startFast s tk' hs htl =>
      by_cases hts : t = s
      · subst hts; rw [hr] at hs; simp at hs
      · exact absurd (by simp [hts, hr]) hne
  | startSlow s tk' hs htl =>
      by_cases hts : t = s
      · subst hts; rw [hr] at hs; simp at hs
      · exact absurd (by simp [hts, hr]) hne
  | finishGrant s w tk' tkw hs hu hww =>
      by_cases hts : t = s
      · subst hts
        rw [hr] at hs
        simp only [Option.some.injEq, Phase.running.injEq] at hs
        subst hs
        exact ⟨by simp, rfl⟩
      · by_cases htw : t = w
        · subst htw; rw [hr] at hww; simp at hww
        · exact absurd (by simp [hts, htw, hr]) hne
  | finishFree s tk' hs hu =>
      by_cases hts : t = s
      · subst hts
        rw [hr] at hs
        simp only [Option.some.injEq, Phase.running.injEq] at hs
        subst hs
        exact ⟨by simp, rfl⟩
      · exact absurd (by simp [hts, hr]) hne

/-- C1: along any execution, a `withLock` caller whose task fails finishes
with exactly that failure value, not altered, wrapped or swallowed; and the
very transition in which a holder's `withLock` completes (with any outcome,
in particular a failure) applies `unlock` in the same step — the release
happens before the outcome is observable — and when no other task is queued
at that point, the mutex is not held afterwards. -/
theorem withLock_releases_and_rethrows_unchanged :
    (∀ (E V : Type) (c c' : WConfig E V) (t : Nat) (e : E),
        Relation.ReflTransGen WStep c c' →
        c.tasks t = some (Phase.start (Except.error e)) →
        ∀ o : Except E V, c'.tasks t = some (Phase.done o) →
        o = Except.error e) ∧
      ∀ (E V : Type) (c c' : WConfig E V) (t : Nat) (tk : Except E V),
          WStep c c' → c.tasks t = some (Phase.running tk) →
          c'.tasks t ≠ some (Phase.running tk) →
          c'.tasks t = some (Phase.done tk) ∧
            c'.mutex = (unlock c.mutex).2 ∧
            (c.mutex.queue = [] → c'.mutex.isLocked = false) := by
  constructor
  · intro E V c c' t e htr hstart o hdone
    have hp := wtrace_payload c c' htr t
    rw [hstart, hdone] at hp
    simpa [taskOf] using hp
  · intro E V c c' t tk hstep hr hne
    obtain ⟨hdone, hmx⟩ := wstep_finish_inv c c' t tk hstep hr hne
    refine ⟨hdone, hmx, ?_⟩
    intro hq
    rw [hmx, unlock_of_queue_nil c.mutex hq]

/-- Witness for C1: task `0` enters `withLock` on a free mutex with a task
that fails with `3`, runs, and finishes; the settled outcome is exactly
`Except.error 3` and afterwards the mutex is free. -/
theorem withLock_releases_and_rethrows_unchanged_witness :
    (Except.error 3 : Except Nat Nat) = Except.error 3 ∧
      (unlock ({ isLocked := true, queue := [] } : Mutex)).2.isLocked = false := by
  constructor
  · have t1 := WStep.startFast
      ({ mutex := { isLocked := false, queue := [] },
         tasks := fun x =>
           if x = 0 then some (Phase.start (Except.error 3)) else none } :
        WConfig Nat Nat)
      0 (Except.error 3) rfl rfl
    have t2 := WStep.finishFree
      ({ mutex :=
          (tryLock
            ({ mutex := { isLocked := false, queue := [] },
               tasks := fun x =>
                 if x = 0 then some (Phase.start (Except.error 3)) else none } :
              WConfig Nat Nat).mutex).2,
         tasks := fun x =>
           if x = 0 then some (Phase.running (Except.error 3))
           else
             ({ mutex := { isLocked := false, queue := [] },
                tasks := fun y =>
                  if y = 0 then some (Phase.start (Except.error 3)) else none } :
               WConfig Nat Nat).tasks x } : WConfig Nat Nat)
      0 (Except.error 3) rfl rfl
    exact withLock_releases_and_rethrows_unchanged.1 Nat Nat _ _ 0 3
      (Relation.ReflTransGen.tail
        (Relation.ReflTransGen.tail Relation.ReflTransGen.refl t1) t2)
      rfl (Except.error 3) (by decide)
  · have hstep := WStep.finishFree
      ({ mutex := { isLocked := true, queue := [] },
         tasks := fun x =>
           if x = 0 then some (Phase.running (Except.error 3)) else none } :
        WConfig Nat Nat)
      0 (Except.error 3) rfl rfl
    have h := withLock_releases_and_rethrows_unchanged.2 Nat Nat _ _ 0
      (Except.error 3) hstep rfl (by decide)
    exact h.2.2 rfl

/-- C8: a `withLock` caller entering on a free mutex takes the `tryLock` fast
path (the resulting state is exactly `tryLock`'s, nothing is enqueued, and it
proceeds directly to running its task); only when the mutex is held does it
fall back to `lock` after the failed `tryLock`, appending itself at the back
of the queue; and the transition completing a holder applies `unlock` exactly
once and settles with exactly the task's outcome — in particular, on success
it returns exactly the value the task returned. -/
theorem withLock_fast_path_then_release_once :
    (∀ (E V : Type) (c c' : WConfig E V) (t : Nat) (tk : Except E V),
        WStep c c' → c.tasks t = some (Phase.start tk) →
        c'.tasks t ≠ some (Phase.start tk) →
        c.mutex.isLocked = false →
        c'.tasks t = some (Phase.running tk) ∧
          c'.mutex = (tryLock c.mutex).2 ∧
          c'.mutex.queue = c.mutex.queue ∧ c'.mutex.isLocked = true) ∧
      (∀ (E V : Type) (c c' : WConfig E V) (t : Nat) (tk : Except E V),
          WStep c c' → c.tasks t = some (Phase.start tk) →
          c'.tasks t ≠ some (Phase.start tk) →
          c.mutex.isLocked = true →
          c'.tasks t = some (Phase.waiting tk) ∧
            c'.mutex = (lock t (tryLock c.mutex).2).2 ∧
            c'.mutex.queue = c.mutex.queue ++ [t]) ∧
      ∀ (E V : Type) (c c' : WConfig E V) (t : Nat) (tk : Except E V),
          WStep c c' → c.tasks t = some (Phase.running tk) →
          c'.tasks t ≠ some (Phase.running tk) →
          c'.tasks t = some (Phase.done tk) ∧ c'.mutex = (unlock c.mutex).2 := by
  refine ⟨?_, ?_, fun E V c c' t tk hstep hr hne =>
    wstep_finish_inv c c' t tk hstep hr hne⟩
  · intro E V c c' t tk hstep hstart hne hfree
    cases hstep with
    | startFast s tk' hs htl =>
        by_cases hts : t = s
        · subst hts
          rw [hstart] at hs
          simp only [Option.some.injEq, Phase.start.injEq] at hs
          subst hs
          exact ⟨by simp, rfl, by simp [tryLock_of_free c.mutex hfree],
            by simp [tryLock_of_free c.mutex hfree]⟩
        · exact absurd (by simp [hts, hstart]) hne
    | startSlow s tk' hs htl =>
        rw [tryLock_of_free c.mutex hfree] at htl
        cases htl
    | finishGrant s w tk' tkw hs hu hww =>
        by_cases hts : t = s
        · subst hts; rw [hstart] at hs; simp at hs
        · by_cases htw : t = w
          · subst htw; rw [hstart] at hww; simp at hww
          · exact absurd (by simp [hts, htw, hstart]) hne
    | finishFree s tk' hs hu =>
        by_cases hts : t = s
        · subst hts; rw [hstart] at hs; simp at hs
        · exact absurd (by simp [hts, hstart]) hne
  · intro E V c c' t tk hstep hstart hne hheld
    cases hstep with
    | startFast s tk' hs htl =>
        rw [tryLock_of_held c.mutex hheld] at htl
        cases htl
    | startSlow s tk' hs htl =>
        by_cases hts : t = s
        · subst hts
          rw [hstart] at hs
          simp only [Option.some.injEq, Phase.start.injEq] at hs
          subst hs
          refine ⟨by simp, rfl, ?_⟩
          rw [tryLock_of_held c.mutex hheld]
          simp [lock_of_held t c.mutex hheld]
        · exact absurd (by simp [hts, hstart]) hne
    | finishGrant s w tk' tkw hs hu hww =>
        by_cases hts : t = s
        · subst hts; rw [hstart] at hs; simp at hs
        · by_cases htw : t = w
          · subst htw; rw [hstart] at hww; simp at hww
          · exact absurd (by simp [hts, htw, hstart]) hne
    | finishFree s tk' hs hu =>
        by_cases hts : t = s
        · subst hts; rw [hstart] at hs; simp at hs
        · exact absurd (by simp [hts, hstart]) hne

/-- Witness for C8: on a free mutex the fast path leaves the flag set with
nothing enqueued; on a held mutex the slow path appends the caller at the
back; completing a holder with task outcome `ok 5` releases the lock. -/
theorem withLock_fast_path_then_release_once_witness :
    (tryLock ({ isLocked := false, queue := [] } : Mutex)).2.isLocked = true ∧
      (lock 1 (tryLock ({ isLocked := true, queue := [] } : Mutex)).2).2.queue =
        ({ isLocked := true, queue := [] } : Mutex).queue ++ [1] ∧
      (unlock ({ isLocked := true, queue := [] } : Mutex)).2 =
        { isLocked := false, queue := [] } := by
  refine ⟨?_, ?_, ?_⟩
  · have hstep := WStep.startFast
      ({ mutex := { isLocked := false, queue := [] },
         tasks := fun x =>
           if x = 0 then some (Phase.start (Except.ok 5)) else none } :
        WConfig Nat Nat)
      0 (Except.ok 5) rfl rfl
    have h := withLock_fast_path_then_release_once.1 Nat Nat _ _ 0
      (Except.ok 5) hstep rfl (by decide) rfl
    exact h.2.2.2
  · have hstep := WStep.startSlow
      ({ mutex := { isLocked := true, queue := [] },
         tasks := fun x =>
           if x = 1 then some (Phase.start (Except.ok 5)) else none } :
        WConfig Nat Nat)
      1 (Except.ok 5) rfl rfl
    have h := withLock_fast_path_then_release_once.2.1 Nat Nat _ _ 1
      (Except.ok 5) hstep rfl (by decide) rfl
    exact h.2.2
  · have hstep := WStep.finishFree
      ({ mutex := { isLocked := true, queue := [] },
         tasks := fun x =>
           if x = 0 then some (Phase.running (Except.ok 5)) else none } :
        WConfig Nat Nat)
      0 (Except.ok 5) rfl rfl
    have h := withLock_fast_path_then_release_once.2.2 Nat Nat _ _ 0
      (Except.ok 5) hstep rfl (by decide)
    exact h.2.symm.trans rfl

end PMutex
